import Mathlib

/-!
Verification development for the cds_ff_mpt technology plug-in: a shallow
embedding of the fin-grid quantizer, row-geometry builder, device/tap layout
emitter, extension/edge policy and dummy-fill synthesizer of
templates_cds_ff_mpt (mos/tech.py and fill/tech.py), together with proofs of
the documented properties of those functions.

Python integer arithmetic conventions: Python's floor division and modulo are
modelled by Int.fdiv and Int.fmod (identical semantics for all signs).  All
divisors appearing in the code are positive, where fdiv/fmod coincide with
Lean's ediv/emod.
-/

/-- Python floor division (the // operator). -/
def pydiv (a b : ℤ) : ℤ := Int.fdiv a b

/-- Python modulo (the % operator). -/
def pymod (a b : ℤ) : ℤ := Int.fmod a b

/-- Python ceiling division, written -(-a // b) in the source. -/
def ceil_div (a b : ℤ) : ℤ := -(pydiv (-a) b)

theorem pydiv_eq_ediv (a : ℤ) {b : ℤ} (hb : 0 ≤ b) : pydiv a b = a / b :=
  Int.fdiv_eq_ediv a hb

theorem pymod_eq_emod (a : ℤ) {b : ℤ} (hb : 0 ≤ b) : pymod a b = a % b :=
  Int.fmod_eq_emod a hb

/-- Technology constants of the mos engine (the mos_config entries and the
derived quantities od_fin_exty, read by MOSTechCDSFFMPT).  All are plain
integers in manufacturing-grid units. -/
structure MOSConfig where
  fin_p : ℤ
  fin_h : ℤ
  od_fin_exty : ℤ
  mp_cpo_spy : ℤ
  mp_h : ℤ
  mp_spy : ℤ
  cpo_od_spy : ℤ
  cpo_h : ℤ
  cpo_spy : ℤ
  md_spy : ℤ
  md_h_min : ℤ
  md_od_exty : ℤ
  od_spy : ℤ

/-- get_od_height: OD height for device width w (mos/tech.py line 169). -/
def get_od_height (cfg : MOSConfig) (w : ℤ) : ℤ :=
  cfg.fin_p * (w - 1) + cfg.fin_h

/-- The signed parity offset of an OD edge: fin_h // 2 + od_fin_exty for a top
edge, its negation for a bottom edge (mos/tech.py lines 178-182). -/
def od_edge_delta (cfg : MOSConfig) (is_top_edge : Bool) : ℤ :=
  let d := pydiv cfg.fin_h 2 + cfg.od_fin_exty
  if is_top_edge then d else -d

/-- The quantity divmod-ed by fin_p inside get_fin_idx:
y - delta - fin_p // 2 (mos/tech.py line 184). -/
def fin_quantity (cfg : MOSConfig) (y : ℤ) (is_top_edge : Bool) : ℤ :=
  y - od_edge_delta cfg is_top_edge - pydiv cfg.fin_p 2

/-- get_fin_idx (mos/tech.py lines 172-190): fin index of an OD top/bottom
edge coordinate.  round_up = none is exact mode, which fails (returns none,
modelling the raised ValueError) when the coordinate is off the fin grid;
round_up = some b rounds up or down. -/
def get_fin_idx (cfg : MOSConfig) (y : ℤ) (is_top_edge : Bool)
    (round_up : Option Bool) : Option ℤ :=
  match round_up with
  | none =>
      if pymod (fin_quantity cfg y is_top_edge) cfg.fin_p = 0 then
        some (pydiv (fin_quantity cfg y is_top_edge) cfg.fin_p)
      else none
  | some ru =>
      some (pydiv (fin_quantity cfg y is_top_edge) cfg.fin_p +
        (if pymod (fin_quantity cfg y is_top_edge) cfg.fin_p ≠ 0 ∧ ru then 1 else 0))

/-- get_od_edge (mos/tech.py lines 192-199): OD edge Y coordinate of a fin
index. -/
def get_od_edge (cfg : MOSConfig) (fin_idx : ℤ) (is_top_edge : Bool) : ℤ :=
  fin_idx * cfg.fin_p + pydiv cfg.fin_p 2 + od_edge_delta cfg is_top_edge

/-- snap_od_edge (mos/tech.py lines 201-203): snap a coordinate to the fin
grid.  The inner get_fin_idx always succeeds in rounding mode. -/
def snap_od_edge (cfg : MOSConfig) (y : ℤ) (is_top_edge : Bool)
    (round_up : Bool) : ℤ :=
  get_od_edge cfg ((get_fin_idx cfg y is_top_edge (some round_up)).getD 0)
    is_top_edge

/-- C1: Grid round-trip: get_fin_idx (get_od_edge i top) top in exact mode
returns exactly i, for every integer fin index i and either edge side. -/
theorem grid_round_trip (cfg : MOSConfig) (i : ℤ) (is_top_edge : Bool)
    (hfp : 0 < cfg.fin_p) :
    get_fin_idx cfg (get_od_edge cfg i is_top_edge) is_top_edge none = some i := by
  have h0 : fin_quantity cfg (get_od_edge cfg i is_top_edge) is_top_edge
      = i * cfg.fin_p := by
    unfold fin_quantity get_od_edge
    ring
  unfold get_fin_idx
  rw [h0, pymod_eq_emod _ hfp.le, pydiv_eq_ediv _ hfp.le]
  rw [mul_comm, Int.mul_emod_right, Int.mul_ediv_cancel_left _ hfp.ne.symm]
  simp

/-- C1 witness: round trip at fin index 7, top edge, on concrete constants. -/
theorem grid_round_trip_witness :
    get_fin_idx ⟨84, 108, 10, 0, 0, 0, 0, 0, 0, 0, 0, 0, 0⟩
      (get_od_edge ⟨84, 108, 10, 0, 0, 0, 0, 0, 0, 0, 0, 0, 0⟩ 7 true) true none
      = some 7 :=
  grid_round_trip ⟨84, 108, 10, 0, 0, 0, 0, 0, 0, 0, 0, 0, 0⟩ 7 true (by decide)

/-- C3: Exact-mode grid behavior: get_fin_idx with round_up = none fails
exactly when y minus the parity offset (fin_p // 2 plus the signed
fin_h // 2 + od_fin_exty) is not an integer multiple of the fin pitch, and on
an on-grid y it returns the index whose OD edge is exactly y. -/
theorem fin_idx_exact_characterization (cfg : MOSConfig) (y : ℤ)
    (is_top_edge : Bool) (hfp : 0 < cfg.fin_p) :
    ((get_fin_idx cfg y is_top_edge none).isNone ↔
      ¬ (cfg.fin_p ∣ (y - (pydiv cfg.fin_p 2 + od_edge_delta cfg is_top_edge))))
    ∧ (∀ i, get_fin_idx cfg y is_top_edge none = some i →
        get_od_edge cfg i is_top_edge = y) := by
  have harg : fin_quantity cfg y is_top_edge =
      y - (pydiv cfg.fin_p 2 + od_edge_delta cfg is_top_edge) := by
    unfold fin_quantity
    ring
  constructor
  · unfold get_fin_idx
    rw [harg, pymod_eq_emod _ hfp.le]
    rcases em (cfg.fin_p ∣ (y - (pydiv cfg.fin_p 2 + od_edge_delta cfg is_top_edge))) with h | h
    · simp [Int.emod_eq_zero_of_dvd h, h]
    · have : (y - (pydiv cfg.fin_p 2 + od_edge_delta cfg is_top_edge)) % cfg.fin_p ≠ 0 := by
        intro hc
        exact h (Int.dvd_of_emod_eq_zero hc)
      simp [this, h]
  · intro i hi
    unfold get_fin_idx at hi
    rw [harg, pymod_eq_emod _ hfp.le, pydiv_eq_ediv _ hfp.le] at hi
    by_cases hr : (y - (pydiv cfg.fin_p 2 + od_edge_delta cfg is_top_edge)) % cfg.fin_p = 0
    · rw [if_pos hr, Option.some_inj] at hi
      have hdvd := Int.dvd_of_emod_eq_zero hr
      have hq := Int.ediv_mul_cancel hdvd
      unfold get_od_edge
      rw [← hi, hq]
      ring
    · simp [hr] at hi

/-- C3 witness: on the concrete grid (fin_p 84, fin_h 108, od_fin_exty 10),
exact mode fails at an off-grid coordinate and the on-grid coordinate of fin
index 3 maps back to itself. -/
theorem fin_idx_exact_witness :
    ((get_fin_idx ⟨84, 108, 10, 0, 0, 0, 0, 0, 0, 0, 0, 0, 0⟩ 100 true none).isNone ↔
      ¬ ((84 : ℤ) ∣ (100 - (pydiv 84 2 + od_edge_delta ⟨84, 108, 10, 0, 0, 0, 0, 0, 0, 0, 0, 0, 0⟩ true))))
    ∧ (∀ i, get_fin_idx ⟨84, 108, 10, 0, 0, 0, 0, 0, 0, 0, 0, 0, 0⟩ 100 true none = some i →
        get_od_edge ⟨84, 108, 10, 0, 0, 0, 0, 0, 0, 0, 0, 0, 0⟩ i true = 100) :=
  fin_idx_exact_characterization ⟨84, 108, 10, 0, 0, 0, 0, 0, 0, 0, 0, 0, 0⟩ 100 true (by decide)

theorem pydiv_nonneg {a b : ℤ} (ha : 0 ≤ a) (hb : 0 < b) : 0 ≤ pydiv a b := by
  rw [pydiv_eq_ediv _ hb.le]
  exact Int.ediv_nonneg ha hb.le

theorem ceil_div_nonneg {a b : ℤ} (ha : 0 ≤ a) (hb : 0 < b) : 0 ≤ ceil_div a b := by
  unfold ceil_div
  rw [pydiv_eq_ediv _ hb.le]
  have h1 : (-a) / b ≤ 0 / b := Int.ediv_le_ediv hb (by linarith)
  rw [Int.zero_ediv] at h1
  linarith

/-- Rounding a coordinate up to the fin grid never moves it down
(snap_od_edge with round_up = True). -/
theorem snap_od_edge_up_ge (cfg : MOSConfig) (y : ℤ) (is_top_edge : Bool)
    (hfp : 0 < cfg.fin_p) : y ≤ snap_od_edge cfg y is_top_edge true := by
  have hy : y = fin_quantity cfg y is_top_edge + od_edge_delta cfg is_top_edge +
      pydiv cfg.fin_p 2 := by
    unfold fin_quantity
    ring
  have hqr := Int.ediv_add_emod (fin_quantity cfg y is_top_edge) cfg.fin_p
  have hlt := Int.emod_lt_of_pos (fin_quantity cfg y is_top_edge) hfp
  have hnn := Int.emod_nonneg (fin_quantity cfg y is_top_edge) hfp.ne.symm
  have hc0 : (fin_quantity cfg y is_top_edge / cfg.fin_p + 0) * cfg.fin_p =
      cfg.fin_p * (fin_quantity cfg y is_top_edge / cfg.fin_p) := by ring
  have hc1 : (fin_quantity cfg y is_top_edge / cfg.fin_p + 1) * cfg.fin_p =
      cfg.fin_p * (fin_quantity cfg y is_top_edge / cfg.fin_p) + cfg.fin_p := by ring
  unfold snap_od_edge get_fin_idx get_od_edge
  simp only [Option.getD_some]
  rw [pymod_eq_emod _ hfp.le, pydiv_eq_ediv _ hfp.le]
  by_cases hr : (fin_quantity cfg y is_top_edge) % cfg.fin_p = 0
  · simp only [hr, ne_eq, not_true_eq_false, false_and, if_false]
    linarith
  · simp only [ne_eq, hr, not_false_eq_true, and_self, if_true]
    linarith

/-- A ConnInfo record (mos/tech.py lines 40-51) as produced by get_conn_info:
wire width, minimum length, line-end spacing, and via geometry for one
connection layer.  (The orientation field, constant for layer 1, is not
modelled.)  The field values are read from the technology tables. -/
structure ConnInfo where
  w : ℤ
  len_min : ℤ
  sp_le : ℤ
  via_w : ℤ
  via_h : ℤ
  via_sp : ℤ
  via_bot_enc : ℤ
  via_top_enc : ℤ

/-- md_h of get_mos_row_info (mos/tech.py line 315). -/
def row_md_h (cfg : MOSConfig) (w : ℤ) : ℤ :=
  max (get_od_height cfg w + 2 * cfg.md_od_exty) cfg.md_h_min

/-- d_m1_h of get_mos_row_info (mos/tech.py line 322). -/
def row_d_m1_h (cfg : MOSConfig) (di : ConnInfo) (w : ℤ) : ℤ :=
  max (row_md_h cfg w) di.len_min

/-- mp_yb of get_mos_row_info (mos/tech.py lines 326-329): the gate contact
band bottom, placed above the bottom CPO. -/
def row_mp_yb (cfg : MOSConfig) : ℤ :=
  max (pydiv cfg.mp_spy 2) ((0 - pydiv cfg.cpo_h 2) + cfg.cpo_h + cfg.mp_cpo_spy)

/-- mp_yc of get_mos_row_info (mos/tech.py lines 330-331). -/
def row_mp_yc (cfg : MOSConfig) : ℤ :=
  pydiv ((row_mp_yb cfg + cfg.mp_h) + row_mp_yb cfg) 2

/-- g_m1_yt of get_mos_row_info (mos/tech.py line 332). -/
def row_g_m1_yt (cfg : MOSConfig) (gi : ConnInfo) : ℤ :=
  row_mp_yc cfg + (pydiv gi.via_w 2 + gi.via_top_enc)

/-- The OD bottom edge before fin-grid snapping (mos/tech.py line 334). -/
def row_od_yb0 (cfg : MOSConfig) (gi di : ConnInfo) (w : ℤ) : ℤ :=
  row_g_m1_yt cfg gi + gi.sp_le +
    pydiv (row_d_m1_h cfg di w - get_od_height cfg w) 2

/-- The OD bottom edge, snapped up to the fin grid (mos/tech.py line 335). -/
def row_od_yb (cfg : MOSConfig) (gi di : ConnInfo) (w : ℤ) : ℤ :=
  snap_od_edge cfg (row_od_yb0 cfg gi di w) false true

/-- The OD top edge (mos/tech.py line 336). -/
def row_od_yt (cfg : MOSConfig) (gi di : ConnInfo) (w : ℤ) : ℤ :=
  row_od_yb cfg gi di w + get_od_height cfg w

/-- The row top before quantization (mos/tech.py line 341). -/
def row_blk_yt0 (cfg : MOSConfig) (gi di : ConnInfo) (w : ℤ) : ℤ :=
  row_od_yt cfg gi di w + cfg.cpo_od_spy + pydiv cfg.cpo_h 2

/-- The row height blk_yt, rounded up to a whole number of fin pitches
(mos/tech.py line 342, written -(-blk_yt // fin_p) * fin_p). -/
def row_blk_yt (cfg : MOSConfig) (gi di : ConnInfo) (w : ℤ) : ℤ :=
  ceil_div (row_blk_yt0 cfg gi di w) cfg.fin_p * cfg.fin_p

/-- The vertical geometry get_mos_row_info stores into MOSRowInfo
(mos/tech.py lines 314-342): OD edges, contact band edges and row height. -/
structure RowYInfo where
  od_yb : ℤ
  od_yt : ℤ
  md_yb : ℤ
  md_yt : ℤ
  blk_yt : ℤ

/-- The vertical stack of get_mos_row_info (mos/tech.py lines 314-342).
gi and di are the gate and drain/source ConnInfo values of get_conn_info. -/
def row_y_info (cfg : MOSConfig) (gi di : ConnInfo) (w : ℤ) : RowYInfo :=
  let od_yb := row_od_yb cfg gi di w
  let od_yt := row_od_yt cfg gi di w
  let od_yc := pydiv (od_yb + od_yt) 2
  let md_yb := od_yc - pydiv (row_md_h cfg w) 2
  ⟨od_yb, od_yt, md_yb, md_yb + row_md_h cfg w, row_blk_yt cfg gi di w⟩

/-- C2: Row height quantization: for every valid row specification (device
width at least 1, non-negative technology constants, positive fin pitch), the
row height blk_yt computed by get_mos_row_info is a non-negative multiple of
the fin pitch. -/
theorem row_height_quantized (cfg : MOSConfig) (gi di : ConnInfo) (w : ℤ)
    (hfp : 0 < cfg.fin_p) (hfh : 0 ≤ cfg.fin_h) (hspy : 0 ≤ cfg.mp_spy)
    (hmph : 0 ≤ cfg.mp_h) (hcpood : 0 ≤ cfg.cpo_od_spy) (hcpoh : 0 ≤ cfg.cpo_h)
    (hmd : 0 ≤ cfg.md_od_exty) (hviaw : 0 ≤ gi.via_w) (henc : 0 ≤ gi.via_top_enc)
    (hsple : 0 ≤ gi.sp_le) (hw : 1 ≤ w) :
    cfg.fin_p ∣ (row_y_info cfg gi di w).blk_yt ∧
      0 ≤ (row_y_info cfg gi di w).blk_yt := by
  have hblk : (row_y_info cfg gi di w).blk_yt = row_blk_yt cfg gi di w := rfl
  have h_odh : 0 ≤ get_od_height cfg w := by
    unfold get_od_height
    have := mul_nonneg hfp.le (by linarith : (0:ℤ) ≤ w - 1)
    linarith
  have h_mpyb : 0 ≤ row_mp_yb cfg :=
    le_trans (pydiv_nonneg hspy (by norm_num)) (le_max_left _ _)
  have h_mpyc : 0 ≤ row_mp_yc cfg :=
    pydiv_nonneg (by linarith) (by norm_num)
  have h_g : 0 ≤ row_g_m1_yt cfg gi := by
    unfold row_g_m1_yt
    have := pydiv_nonneg hviaw (show (0:ℤ) < 2 by norm_num)
    linarith
  have h_dm1 : get_od_height cfg w ≤ row_d_m1_h cfg di w := by
    unfold row_d_m1_h row_md_h
    calc get_od_height cfg w ≤ get_od_height cfg w + 2 * cfg.md_od_exty := by linarith
    _ ≤ max (get_od_height cfg w + 2 * cfg.md_od_exty) cfg.md_h_min := le_max_left _ _
    _ ≤ _ := le_max_left _ _
  have h_odyb0 : 0 ≤ row_od_yb0 cfg gi di w := by
    unfold row_od_yb0
    have := pydiv_nonneg (by linarith : (0:ℤ) ≤ row_d_m1_h cfg di w - get_od_height cfg w)
      (show (0:ℤ) < 2 by norm_num)
    linarith
  have h_snap : row_od_yb0 cfg gi di w ≤ row_od_yb cfg gi di w :=
    snap_od_edge_up_ge cfg _ false hfp
  have h_blk0 : 0 ≤ row_blk_yt0 cfg gi di w := by
    unfold row_blk_yt0 row_od_yt
    have := pydiv_nonneg hcpoh (show (0:ℤ) < 2 by norm_num)
    linarith
  constructor
  · rw [hblk]
    unfold row_blk_yt
    exact dvd_mul_left _ _
  · rw [hblk]
    unfold row_blk_yt
    exact mul_nonneg (ceil_div_nonneg h_blk0 hfp) hfp.le

/-- C2 witness: on the spec's concrete scenario constants (fin pitch 84, fin
height 108) with device width 4, the computed row height is a non-negative
multiple of the fin pitch. -/
theorem row_height_quantized_witness :
    (84 : ℤ) ∣ (row_y_info ⟨84, 108, 10, 10, 20, 30, 40, 60, 50, 46, 68, 20, 50⟩
        ⟨40, 100, 48, 32, 32, 42, 10, 40⟩ ⟨40, 100, 48, 32, 32, 42, 10, 40⟩ 4).blk_yt
    ∧ 0 ≤ (row_y_info ⟨84, 108, 10, 10, 20, 30, 40, 60, 50, 46, 68, 20, 50⟩
        ⟨40, 100, 48, 32, 32, 42, 10, 40⟩ ⟨40, 100, 48, 32, 32, 42, 10, 40⟩ 4).blk_yt :=
  row_height_quantized ⟨84, 108, 10, 10, 20, 30, 40, 60, 50, 46, 68, 20, 50⟩
    ⟨40, 100, 48, 32, 32, 42, 10, 40⟩ ⟨40, 100, 48, 32, 32, 42, 10, 40⟩ 4
    (by decide) (by decide) (by decide) (by decide) (by decide) (by decide)
    (by decide) (by decide) (by decide) (by decide) (by decide)

/-- vnum1 of get_mos_conn_info (mos/tech.py line 459): via-array capacity
implied by the contact-band (MD) height. -/
def conn_vnum1 (di : ConnInfo) (md_yb md_yt : ℤ) : ℤ :=
  pydiv (md_yt - md_yb - di.via_bot_enc * 2 + di.via_sp) (di.via_h + di.via_sp)

/-- vnum2 of get_mos_conn_info (mos/tech.py line 460): via-array capacity
implied by the drain/source metal span height. -/
def conn_vnum2 (di : ConnInfo) (ds_yb ds_yt : ℤ) : ℤ :=
  pydiv (ds_yt - ds_yb - di.via_top_enc * 2 + di.via_sp) (di.via_h + di.via_sp)

/-- vnum of get_mos_conn_info (mos/tech.py line 461): the drain/source via
stack count. -/
def conn_vnum (di : ConnInfo) (md_yb md_yt ds_yb ds_yt : ℤ) : ℤ :=
  min (conn_vnum1 di md_yb md_yt) (conn_vnum2 di ds_yb ds_yt)

/-- C4: Via-count monotonicity: the drain/source via stack count is the
minimum of the two capacities, and increasing the contact-band height
(all other inputs fixed, via pitch positive) never decreases it. -/
theorem via_count_monotone (di : ConnInfo)
    (md_yb1 md_yt1 md_yb2 md_yt2 ds_yb ds_yt : ℤ)
    (hp : 0 < di.via_h + di.via_sp)
    (hh : md_yt1 - md_yb1 ≤ md_yt2 - md_yb2) :
    conn_vnum di md_yb1 md_yt1 ds_yb ds_yt
      = min (conn_vnum1 di md_yb1 md_yt1) (conn_vnum2 di ds_yb ds_yt)
    ∧ conn_vnum di md_yb1 md_yt1 ds_yb ds_yt ≤
        conn_vnum di md_yb2 md_yt2 ds_yb ds_yt := by
  refine ⟨rfl, min_le_min ?_ le_rfl⟩
  unfold conn_vnum1
  rw [pydiv_eq_ediv _ hp.le, pydiv_eq_ediv _ hp.le]
  exact Int.ediv_le_ediv hp (by linarith)

/-- C4 witness: a contact band of height 200 versus 348 on a concrete via
rule; the stack count does not decrease. -/
theorem via_count_monotone_witness :
    conn_vnum ⟨40, 100, 48, 32, 32, 42, 10, 40⟩ 0 200 0 300
      = min (conn_vnum1 ⟨40, 100, 48, 32, 32, 42, 10, 40⟩ 0 200)
          (conn_vnum2 ⟨40, 100, 48, 32, 32, 42, 10, 40⟩ 0 300)
    ∧ conn_vnum ⟨40, 100, 48, 32, 32, 42, 10, 40⟩ 0 200 0 300 ≤
        conn_vnum ⟨40, 100, 48, 32, 32, 42, 10, 40⟩ 0 348 0 300 :=
  via_count_monotone ⟨40, 100, 48, 32, 32, 42, 10, 40⟩ 0 200 0 348 0 300
    (by decide) (by decide)

/-- num_s of get_mos_conn_info (mos/tech.py line 431): source columns. -/
def conn_num_s (seg : ℤ) : ℤ := pydiv seg 2 + 1

/-- num_d of get_mos_conn_info (mos/tech.py line 432): drain columns. -/
def conn_num_d (seg : ℤ) : ℤ := pydiv (seg + 1) 2

/-- num_m of get_mos_conn_info (mos/tech.py line 468): middle-contact columns
when the middle node is exported, fg + 1 - num_s - num_d with fg = seg * stack. -/
def conn_num_m (seg stack : ℤ) : ℤ :=
  seg * stack + 1 - conn_num_s seg - conn_num_d seg

/-- C10: Contact-column partition: num_s + num_d = seg + 1; with stack = 2 the
middle-contact count equals seg, and source, drain and middle columns together
account for exactly fg + 1 = seg * 2 + 1 contact columns. -/
theorem conn_column_partition (seg : ℤ) (hseg : 1 ≤ seg) :
    conn_num_s seg + conn_num_d seg = seg + 1
    ∧ conn_num_m seg 2 = seg
    ∧ conn_num_s seg + conn_num_d seg + conn_num_m seg 2 = seg * 2 + 1 := by
  simp only [conn_num_m, conn_num_s, conn_num_d]
  rw [pydiv_eq_ediv _ (by norm_num : (0:ℤ) ≤ 2),
    pydiv_eq_ediv _ (by norm_num : (0:ℤ) ≤ 2)]
  omega

/-- C10 witness: the partition at seg = 5. -/
theorem conn_column_partition_witness :
    conn_num_s 5 + conn_num_d 5 = 5 + 1
    ∧ conn_num_m 5 2 = 5
    ∧ conn_num_s 5 + conn_num_d 5 + conn_num_m 5 2 = 5 * 2 + 1 :=
  conn_column_partition 5 (by decide)

/-- The xbase MOSType enum values used by this technology plug-in. -/
inductive MOSType where
  | nch
  | pch
  | ptap
  | ntap
deriving DecidableEq, Fintype

/-- MOSType.is_substrate: substrate-tap row types. -/
def MOSType.is_substrate : MOSType → Bool
  | .ptap => true
  | .ntap => true
  | _ => false

/-- MOSType.is_pwell: row types living in the p-well (nmos transistors and
ptap substrate contacts), matching the priority note in _choose_top_implant
("nmos/ptap row"). -/
def MOSType.is_pwell : MOSType → Bool
  | .nch => true
  | .ptap => true
  | _ => false

/-- MOSType.sub_type: the substrate-tap type of a row type (nch sits in the
p-well over ptap, pch in the n-well over ntap; taps are their own
substrate). -/
def MOSType.sub_type : MOSType → MOSType
  | .nch => .ptap
  | .pch => .ntap
  | t => t

/-- _choose_top_implant (mos/tech.py lines 932-943): true to prefer drawing
the implant of the top row in an extension region. -/
def _choose_top_implant (bot_type top_type : MOSType) : Bool :=
  if bot_type.is_substrate ≠ top_type.is_substrate then bot_type.is_substrate
  else top_type.is_pwell

/-- The row type whose implant dominates an extension region, as selected by
get_mos_ext_info from _choose_top_implant (mos/tech.py lines 686-691). -/
def choose_ext_row_type (bot_type top_type : MOSType) : MOSType :=
  if _choose_top_implant bot_type top_type then top_type else bot_type

/-- C6: Implant-dominance tie-break: the chosen row type is a pure
deterministic function of the two tags, is always one of its two arguments,
prefers a transistor row over a substrate row, and between rows of the same
category prefers the p-well row. -/
theorem implant_tie_break : ∀ b t : MOSType,
    (choose_ext_row_type b t = b ∨ choose_ext_row_type b t = t)
    ∧ choose_ext_row_type b t = choose_ext_row_type b t
    ∧ (b.is_substrate = true ∧ t.is_substrate = false → choose_ext_row_type b t = t)
    ∧ (t.is_substrate = true ∧ b.is_substrate = false → choose_ext_row_type b t = b)
    ∧ (b.is_substrate = t.is_substrate ∧ b.is_pwell = true ∧ t.is_pwell = false →
        choose_ext_row_type b t = b)
    ∧ (b.is_substrate = t.is_substrate ∧ t.is_pwell = true ∧ b.is_pwell = false →
        choose_ext_row_type b t = t) := by
  decide

/-- C6 witness: a ptap substrate row abutting an nch transistor row yields the
transistor row's implant. -/
theorem implant_tie_break_witness :
    choose_ext_row_type MOSType.ptap MOSType.nch = MOSType.nch :=
  (implant_tie_break MOSType.ptap MOSType.nch).2.2.1 ⟨rfl, rfl⟩

/-- The boundary-marker self-clearance requirement min_ext_w1 of
get_ext_width_info (mos/tech.py line 383), in fin pitches. -/
def ext_min_w1 (cfg : MOSConfig) : ℤ :=
  ceil_div (cfg.cpo_h + cfg.cpo_spy) cfg.fin_p

/-- The first-metal line-end shortfall min_ext_w2 of get_ext_width_info
(mos/tech.py lines 385-387), in fin pitches. -/
def ext_min_w2 (cfg : MOSConfig) (bot_m1 top_m1 m1_spy : ℤ) : ℤ :=
  ceil_div (m1_spy - (top_m1 + bot_m1)) cfg.fin_p

/-- The xbase ExtWidthInfo record: the list of discrete allowed widths plus
the minimum width from which all widths are legal. -/
structure ExtWidthInfo where
  w_list : List ℤ
  w_min : ℤ

/-- get_ext_width_info (mos/tech.py lines 377-394): minimum extension height
in fin pitches between two adjoining rows.  bot_m1 and top_m1 are the m1
margins of the two RowExtInfo margin maps and m1_spy the minimum line-end
spacing stored with them. -/
def get_ext_width_info (cfg : MOSConfig) (bot_m1 top_m1 m1_spy : ℤ)
    (ignore_vm_sp_le : Bool) : ExtWidthInfo :=
  if 0 < (if ignore_vm_sp_le then 0 else ext_min_w2 cfg bot_m1 top_m1 m1_spy) then
    ⟨[], max (ext_min_w1 cfg)
      (if ignore_vm_sp_le then 0 else ext_min_w2 cfg bot_m1 top_m1 m1_spy)⟩
  else
    ⟨[0], ext_min_w1 cfg⟩

/-- C7: Minimum extension gap: with the vm line-end check enabled the minimum
gap is the maximum of the boundary-marker self-clearance (a) and the
first-metal line-end shortfall (b); with the flag set (or when the shortfall
is non-positive, subsumed by the maximum) only (a) applies. -/
theorem ext_width_min_gap (cfg : MOSConfig) (bot_m1 top_m1 m1_spy : ℤ)
    (hfp : 0 < cfg.fin_p) (hc : 0 ≤ cfg.cpo_h + cfg.cpo_spy) :
    (get_ext_width_info cfg bot_m1 top_m1 m1_spy false).w_min
      = max (ext_min_w1 cfg) (ext_min_w2 cfg bot_m1 top_m1 m1_spy)
    ∧ (get_ext_width_info cfg bot_m1 top_m1 m1_spy true).w_min = ext_min_w1 cfg := by
  have h1 : 0 ≤ ext_min_w1 cfg := ceil_div_nonneg hc hfp
  constructor
  · unfold get_ext_width_info
    by_cases h2 : 0 < ext_min_w2 cfg bot_m1 top_m1 m1_spy
    · simp [h2]
    · push_neg at h2
      simp only [Bool.false_eq_true, if_false, if_neg (not_lt.mpr h2)]
      exact (max_eq_left (by linarith)).symm
  · unfold get_ext_width_info
    simp

/-- C7 witness: concrete margin maps on the concrete constants; both flag
settings produce the stated minimum gap. -/
theorem ext_width_min_gap_witness :
    (get_ext_width_info ⟨84, 108, 10, 10, 20, 30, 40, 60, 50, 46, 68, 20, 50⟩
        30 40 120 false).w_min
      = max (ext_min_w1 ⟨84, 108, 10, 10, 20, 30, 40, 60, 50, 46, 68, 20, 50⟩)
          (ext_min_w2 ⟨84, 108, 10, 10, 20, 30, 40, 60, 50, 46, 68, 20, 50⟩ 30 40 120)
    ∧ (get_ext_width_info ⟨84, 108, 10, 10, 20, 30, 40, 60, 50, 46, 68, 20, 50⟩
        30 40 120 true).w_min
      = ext_min_w1 ⟨84, 108, 10, 10, 20, 30, 40, 60, 50, 46, 68, 20, 50⟩ :=
  ext_width_min_gap ⟨84, 108, 10, 10, 20, 30, 40, 60, 50, 46, 68, 20, 50⟩
    30 40 120 (by decide) (by decide)

/-- A layout rectangle (the BBox coordinates of pybag). -/
structure Rect where
  xl : ℤ
  yb : ℤ
  xr : ℤ
  yt : ℤ
deriving DecidableEq

/-- The fields of a MOSEdgeInfo consulted by get_mos_space_info; an empty
MOSEdgeInfo dict (falsy in Python) is modelled as none. -/
structure EdgeData where
  mos_type : MOSType
  has_od : Bool
deriving DecidableEq

/-- left_info.get of the has_od key with default False (mos/tech.py
lines 610, 618). -/
def edge_has_od : Option EdgeData → Bool
  | none => false
  | some e => e.has_od

/-- The errors get_mos_space_info can raise: the ValueError for empty space
between guard-ring edges (line 646) and the ODImplantEnclosureError
(lines 662-663). -/
inductive SpaceErr where
  | guard_ring_gap
  | od_implant_enclosure
deriving DecidableEq

/-- od_extx as computed in get_mos_space_info (mos/tech.py line 609):
od_po_extx - (sd_pitch - lch) // 2. -/
def od_extx_of (sd_pitch lch od_po_extx : ℤ) : ℤ :=
  od_po_extx - pydiv (sd_pitch - lch) 2

/-- typel resolution of get_mos_space_info (mos/tech.py lines 629-640). -/
def space_typel (row_type : MOSType) (li ri : Option EdgeData) : MOSType :=
  match li, ri with
  | some l, _ => l.mos_type
  | none, some r => r.mos_type
  | none, none => row_type

/-- typer resolution of get_mos_space_info (mos/tech.py lines 629-640). -/
def space_typer (row_type : MOSType) (li ri : Option EdgeData) : MOSType :=
  match li, ri with
  | some l, none => l.mos_type
  | _, some r => r.mos_type
  | none, none => row_type

/-- guard_ring flag of get_mos_space_info (mos/tech.py lines 642-643). -/
def space_guard_ring (row_type typel typer : MOSType) : Bool :=
  (typel.is_substrate && decide (typel ≠ row_type.sub_type)) ||
    (typer.is_substrate && decide (typer ≠ row_type.sub_type))

/-- The side condition choosing the split candidate in get_mos_space_info
(mos/tech.py line 656). -/
def space_left_chosen (row_type typel typer : MOSType) : Bool :=
  typel.is_substrate && (!typer.is_substrate || decide (typel ≠ row_type.sub_type))

/-- imp_xmin of get_mos_space_info (mos/tech.py lines 610-616). -/
def space_imp_xmin (sd_pitch lch od_po_extx imp_od_encx : ℤ)
    (li : Option EdgeData) : ℤ :=
  if edge_has_od li then od_extx_of sd_pitch lch od_po_extx + imp_od_encx else 0

/-- imp_xmax of get_mos_space_info (mos/tech.py lines 618-624). -/
def space_imp_xmax (num_cols sd_pitch lch od_po_extx imp_od_encx : ℤ)
    (ri : Option EdgeData) : ℤ :=
  if edge_has_od ri then
    num_cols * sd_pitch - od_extx_of sd_pitch lch od_po_extx - imp_od_encx
  else num_cols * sd_pitch

/-- xmid of get_mos_space_info (mos/tech.py lines 656-659): the implant/well
split candidate. -/
def space_xmid (row_type : MOSType) (num_cols sd_pitch lch od_po_extx imp_od_encx : ℤ)
    (typel typer : MOSType) : ℤ :=
  if space_left_chosen row_type typel typer then
    od_extx_of sd_pitch lch od_po_extx + imp_od_encx
  else
    num_cols * sd_pitch - od_extx_of sd_pitch lch od_po_extx - imp_od_encx

/-- The horizontal enclosure constraint of the chosen side: the split point
must leave the chosen minimal-width side at least its device-to-implant
enclosure (od_extx + imp_od_encx from the block edge). -/
def space_chosen_ok (row_type : MOSType) (num_cols sd_pitch lch od_po_extx imp_od_encx : ℤ)
    (typel typer : MOSType) (x : ℤ) : Prop :=
  if space_left_chosen row_type typel typer then
    od_extx_of sd_pitch lch od_po_extx + imp_od_encx ≤ x
  else
    x ≤ num_cols * sd_pitch - (od_extx_of sd_pitch lch od_po_extx + imp_od_encx)

/-- The implant/well-split core of get_mos_space_info (mos/tech.py
lines 599-677): the implant-family rectangles emitted for a space block
(one representative rectangle per covered region) or the raised error.
No geometry is produced on the error paths. -/
def get_mos_space_imp (row_type : MOSType)
    (num_cols sd_pitch lch od_po_extx imp_od_encx blk_yt : ℤ)
    (li ri : Option EdgeData) : Except SpaceErr (List Rect) :=
  if space_typel row_type li ri = space_typer row_type li ri then
    if space_guard_ring row_type (space_typel row_type li ri) (space_typer row_type li ri) then
      Except.error SpaceErr.guard_ring_gap
    else
      Except.ok [⟨0, 0, num_cols * sd_pitch, blk_yt⟩]
  else
    if space_xmid row_type num_cols sd_pitch lch od_po_extx imp_od_encx
          (space_typel row_type li ri) (space_typer row_type li ri)
        < space_imp_xmin sd_pitch lch od_po_extx imp_od_encx li
      ∨ space_imp_xmax num_cols sd_pitch lch od_po_extx imp_od_encx ri
        < space_xmid row_type num_cols sd_pitch lch od_po_extx imp_od_encx
            (space_typel row_type li ri) (space_typer row_type li ri) then
      Except.error SpaceErr.od_implant_enclosure
    else
      Except.ok
        [⟨0, 0, space_xmid row_type num_cols sd_pitch lch od_po_extx imp_od_encx
            (space_typel row_type li ri) (space_typer row_type li ri), blk_yt⟩,
         ⟨space_xmid row_type num_cols sd_pitch lch od_po_extx imp_od_encx
            (space_typel row_type li ri) (space_typer row_type li ri), 0,
          num_cols * sd_pitch, blk_yt⟩]

/-- C8: Infeasible-enclosure failure: with two differing row types on the two
sides of a space block, get_mos_space_info raises ODImplantEnclosureError if
and only if no split point of the feasible interval [imp_xmin, imp_xmax]
satisfies the chosen side's device-to-implant enclosure; otherwise the two
implant rectangles exactly partition the block width at the split point. -/
theorem space_enclosure_split (row_type tl tr : MOSType) (lod rod : Bool)
    (num_cols sd_pitch lch od_po_extx imp_od_encx blk_yt : ℤ)
    (hne : tl ≠ tr)
    (he : 0 ≤ od_extx_of sd_pitch lch od_po_extx + imp_od_encx) :
    (get_mos_space_imp row_type num_cols sd_pitch lch od_po_extx imp_od_encx blk_yt
        (some ⟨tl, lod⟩) (some ⟨tr, rod⟩) = Except.error SpaceErr.od_implant_enclosure
      ↔ ∀ x : ℤ,
          space_imp_xmin sd_pitch lch od_po_extx imp_od_encx (some ⟨tl, lod⟩) ≤ x →
          x ≤ space_imp_xmax num_cols sd_pitch lch od_po_extx imp_od_encx (some ⟨tr, rod⟩) →
          ¬ space_chosen_ok row_type num_cols sd_pitch lch od_po_extx imp_od_encx tl tr x)
    ∧ (∀ rl rr,
        get_mos_space_imp row_type num_cols sd_pitch lch od_po_extx imp_od_encx blk_yt
          (some ⟨tl, lod⟩) (some ⟨tr, rod⟩) = Except.ok [rl, rr] →
        rl.xl = 0 ∧ rl.xr = rr.xl ∧ rr.xr = num_cols * sd_pitch ∧
          rl.xr = space_xmid row_type num_cols sd_pitch lch od_po_extx imp_od_encx tl tr) := by
  have htl : space_typel row_type (some ⟨tl, lod⟩) (some ⟨tr, rod⟩) = tl := rfl
  have htr : space_typer row_type (some ⟨tl, lod⟩) (some ⟨tr, rod⟩) = tr := rfl
  have hmin : space_imp_xmin sd_pitch lch od_po_extx imp_od_encx (some ⟨tl, lod⟩) ≤
      od_extx_of sd_pitch lch od_po_extx + imp_od_encx := by
    unfold space_imp_xmin edge_has_od
    cases lod <;> simp <;> omega
  have hmax : num_cols * sd_pitch - od_extx_of sd_pitch lch od_po_extx - imp_od_encx ≤
      space_imp_xmax num_cols sd_pitch lch od_po_extx imp_od_encx (some ⟨tr, rod⟩) := by
    unfold space_imp_xmax edge_has_od
    cases rod <;> simp <;> omega
  unfold get_mos_space_imp
  rw [htl, htr, if_neg hne]
  by_cases hLC : space_left_chosen row_type tl tr
  · have hx : space_xmid row_type num_cols sd_pitch lch od_po_extx imp_od_encx tl tr =
        od_extx_of sd_pitch lch od_po_extx + imp_od_encx := by
      unfold space_xmid
      rw [if_pos hLC]
    by_cases herr : space_xmid row_type num_cols sd_pitch lch od_po_extx imp_od_encx tl tr
          < space_imp_xmin sd_pitch lch od_po_extx imp_od_encx (some ⟨tl, lod⟩)
        ∨ space_imp_xmax num_cols sd_pitch lch od_po_extx imp_od_encx (some ⟨tr, rod⟩)
          < space_xmid row_type num_cols sd_pitch lch od_po_extx imp_od_encx tl tr
    · rw [if_pos herr]
      refine ⟨⟨fun _ x hx1 hx2 => ?_, fun _ => rfl⟩, fun rl rr hok => by simp at hok⟩
      unfold space_chosen_ok
      rw [if_pos hLC]
      rw [hx] at herr
      omega
    · rw [if_neg herr]
      push_neg at herr
      constructor
      · constructor
        · intro h
          simp at h
        · intro hall
          exfalso
          refine hall (space_xmid row_type num_cols sd_pitch lch od_po_extx imp_od_encx tl tr)
            herr.1 herr.2 ?_
          unfold space_chosen_ok
          rw [if_pos hLC, hx]
      · intro rl rr hok
        simp only [Except.ok.injEq, List.cons.injEq, and_true] at hok
        obtain ⟨h1, h2⟩ := hok
        rw [← h1, ← h2]
        exact ⟨rfl, rfl, rfl, rfl⟩
  · have hx : space_xmid row_type num_cols sd_pitch lch od_po_extx imp_od_encx tl tr =
        num_cols * sd_pitch - od_extx_of sd_pitch lch od_po_extx - imp_od_encx := by
      unfold space_xmid
      rw [if_neg hLC]
    by_cases herr : space_xmid row_type num_cols sd_pitch lch od_po_extx imp_od_encx tl tr
          < space_imp_xmin sd_pitch lch od_po_extx imp_od_encx (some ⟨tl, lod⟩)
        ∨ space_imp_xmax num_cols sd_pitch lch od_po_extx imp_od_encx (some ⟨tr, rod⟩)
          < space_xmid row_type num_cols sd_pitch lch od_po_extx imp_od_encx tl tr
    · rw [if_pos herr]
      refine ⟨⟨fun _ x hx1 hx2 => ?_, fun _ => rfl⟩, fun rl rr hok => by simp at hok⟩
      unfold space_chosen_ok
      rw [if_neg hLC]
      rw [hx] at herr
      omega
    · rw [if_neg herr]
      push_neg at herr
      constructor
      · constructor
        · intro h
          simp at h
        · intro hall
          exfalso
          refine hall (space_xmid row_type num_cols sd_pitch lch od_po_extx imp_od_encx tl tr)
            herr.1 herr.2 ?_
          unfold space_chosen_ok
          rw [if_neg hLC, hx]
          omega
      · intro rl rr hok
        simp only [Except.ok.injEq, List.cons.injEq, and_true] at hok
        obtain ⟨h1, h2⟩ := hok
        rw [← h1, ← h2]
        exact ⟨rfl, rfl, rfl, rfl⟩

/-- C8 witness: a one-column nch-row space block between an ntap guard-ring
edge and an nch edge (both with OD) cannot satisfy both sides' enclosure
(xmid 54 exceeds imp_xmax 36), so the error characterization and the
partition property are witnessed on concrete numbers. -/
theorem space_enclosure_split_witness :
    (get_mos_space_imp MOSType.nch 1 90 18 50 40 420
        (some ⟨MOSType.ntap, true⟩) (some ⟨MOSType.nch, true⟩)
        = Except.error SpaceErr.od_implant_enclosure
      ↔ ∀ x : ℤ,
          space_imp_xmin 90 18 50 40 (some ⟨MOSType.ntap, true⟩) ≤ x →
          x ≤ space_imp_xmax 1 90 18 50 40 (some ⟨MOSType.nch, true⟩) →
          ¬ space_chosen_ok MOSType.nch 1 90 18 50 40 MOSType.ntap MOSType.nch x)
    ∧ (∀ rl rr,
        get_mos_space_imp MOSType.nch 1 90 18 50 40 420
          (some ⟨MOSType.ntap, true⟩) (some ⟨MOSType.nch, true⟩) = Except.ok [rl, rr] →
        rl.xl = 0 ∧ rl.xr = rr.xl ∧ rr.xr = 1 * 90 ∧
          rl.xr = space_xmid MOSType.nch 1 90 18 50 40 MOSType.ntap MOSType.nch) :=
  space_enclosure_split MOSType.nch MOSType.ntap MOSType.nch true true
    1 90 18 50 40 420 (by decide) (by decide)

/-- The fill-configuration constants read by FillTechCDSFFMPT.get_fill_info
(fill/tech.py lines 66-75, 132-133).  The float density target od_density_min
only parametrizes the external min-density solver, whose interval output is
passed in as an oracle below, so it is not modelled. -/
structure FillCfg where
  mos_pitch : ℤ
  fin_h : ℤ
  lch : ℤ
  po_od_exty : ℤ
  po_spy : ℤ
  sd_pitch : ℤ
  od_spx : ℤ
  imp_od_encx : ℤ
  imp_po_ency : ℤ
  num_sd_min : ℤ
  num_sd_max : ℤ

/-- The layer families of the rectangles get_fill_info draws. -/
inductive FillLayer where
  | od_dummy
  | po_dummy
  | imp
  | fb
deriving DecidableEq

/-- One add_rect_arr call: layer, rectangle, repetition count and pitch. -/
structure RectArr where
  lay : FillLayer
  rect : Rect
  nx : ℤ
  spx : ℤ
deriving DecidableEq

/-- _get_od_w (fill/tech.py lines 32-33). -/
def _get_od_w (num_sd sd_pitch lch : ℤ) : ℤ := num_sd * sd_pitch + lch

/-- _get_num_sd (fill/tech.py lines 36-38). -/
def _get_num_sd (w sd_pitch lch : ℤ) (round_up : Bool) : ℤ :=
  pydiv (w - lch) sd_pitch +
    (if pymod (w - lch) sd_pitch ≠ 0 ∧ round_up then 1 else 0)

/-- od_edge_margin of get_fill_info (fill/tech.py line 78). -/
def fill_od_edge_margin (cfg : FillCfg) : ℤ :=
  max cfg.imp_od_encx (pydiv cfg.od_spx 2)

/-- po_edge_margin of get_fill_info (fill/tech.py line 79). -/
def fill_po_edge_margin (cfg : FillCfg) : ℤ :=
  max cfg.imp_po_ency (pydiv cfg.po_spy 2)

/-- num_sd_tot of _get_od_x_list (fill/tech.py line 144). -/
def fill_num_sd_tot (cfg : FillCfg) (fill_xl fill_xh : ℤ) : ℤ :=
  _get_num_sd (fill_xh - fill_xl) cfg.sd_pitch cfg.lch false

/-- row_w of _get_od_x_list (fill/tech.py line 145). -/
def fill_row_w (cfg : FillCfg) (fill_xl fill_xh : ℤ) : ℤ :=
  _get_od_w (fill_num_sd_tot cfg fill_xl fill_xh) cfg.sd_pitch cfg.lch

/-- row_xl of _get_od_x_list (fill/tech.py line 146). -/
def fill_row_xl (cfg : FillCfg) (fill_xl fill_xh : ℤ) : ℤ :=
  pydiv (fill_xl + fill_xh - fill_row_w cfg fill_xl fill_xh) 2

/-- _get_od_x_list (fill/tech.py lines 130-159): the horizontal dummy-fill
pass.  A span narrower than the minimum dummy width yields no intervals; a
span of at most num_sd_max gate pitches yields one centered interval;
otherwise the external max-density solver's interval list (solver_x) is
used.  The reported densities only feed the y-pass oracle and are not
modelled. -/
def _get_od_x_list (cfg : FillCfg) (fill_xl fill_xh : ℤ)
    (solver_x : List (ℤ × ℤ)) : List (ℤ × ℤ) :=
  if fill_xh - fill_xl < _get_od_w cfg.num_sd_min cfg.sd_pitch cfg.lch then []
  else if fill_num_sd_tot cfg fill_xl fill_xh ≤ cfg.num_sd_max then
    [(fill_row_xl cfg fill_xl fill_xh,
      fill_row_xl cfg fill_xl fill_xh + fill_row_w cfg fill_xl fill_xh)]
  else solver_x

/-- fin_yb of get_fill_info (fill/tech.py line 122). -/
def fill_fin_yb (cfg : FillCfg) (bnd_yb : ℤ) : ℤ :=
  pydiv (bnd_yb - pydiv cfg.mos_pitch 2 + pydiv cfg.fin_h 2) cfg.mos_pitch *
      cfg.mos_pitch + pydiv cfg.mos_pitch 2 - pydiv cfg.fin_h 2

/-- fin_yt of get_fill_info (fill/tech.py line 123). -/
def fill_fin_yt (cfg : FillCfg) (bnd_yt : ℤ) : ℤ :=
  ceil_div (bnd_yt - pydiv cfg.mos_pitch 2 - pydiv cfg.fin_h 2) cfg.mos_pitch *
      cfg.mos_pitch + pydiv cfg.mos_pitch 2 + pydiv cfg.fin_h 2

/-- The dummy OD/PO drawing loop of get_fill_info (fill/tech.py
lines 110-119). -/
def fill_draw_rects (cfg : FillCfg) (fill_yl fill_yh : ℤ)
    (od_x_list od_y_list : List (ℤ × ℤ)) : List RectArr :=
  (od_y_list.enum).flatMap (fun p =>
    od_x_list.flatMap (fun q =>
      [⟨FillLayer.od_dummy, ⟨q.1, p.2.1, q.2, p.2.2⟩, 1, 0⟩,
       ⟨FillLayer.po_dummy,
        ⟨q.1, if p.1 = 0 then fill_yl else p.2.1 - cfg.po_od_exty,
         q.1 + cfg.lch,
         if p.1 = od_y_list.length - 1 then fill_yh else p.2.2 + cfg.po_od_exty⟩,
        1 + pydiv (q.2 - q.1 - cfg.lch) cfg.sd_pitch, cfg.sd_pitch⟩]))

/-- get_fill_info (fill/tech.py lines 64-128): the emitted rectangle-array
entries and the sealed bounding box.  del/der/deb/det are the edge deltas of
the el/er/eb/et Params; solver_x and solver_y stand for the interval lists of
the external max-density (x pass) and min-density (y pass) fill solvers. -/
def get_fill_info (cfg : FillCfg) (w h del der deb det : ℤ)
    (solver_x solver_y : List (ℤ × ℤ)) : List RectArr × Rect :=
  if _get_od_x_list cfg (del + fill_od_edge_margin cfg)
      ((w - der) - fill_od_edge_margin cfg) solver_x = [] then
    ([], ⟨del, deb, w - der, h - det⟩)
  else if solver_y = [] then
    ([], ⟨del, deb, w - der, h - det⟩)
  else
    (fill_draw_rects cfg (deb + fill_po_edge_margin cfg)
        ((h - det) - fill_po_edge_margin cfg)
        (_get_od_x_list cfg (del + fill_od_edge_margin cfg)
          ((w - der) - fill_od_edge_margin cfg) solver_x)
        solver_y
      ++ [⟨FillLayer.imp, ⟨del, deb, w - der, h - det⟩, 1, 0⟩,
          ⟨FillLayer.fb, ⟨del, fill_fin_yb cfg deb, w - der, fill_fin_yt cfg (h - det)⟩,
           1, 0⟩],
     ⟨del, deb, w - der, h - det⟩)

/-- C9: Small-region fill is empty, not an error: a horizontal fill-eligible
span narrower than the minimum dummy-active width
(num_sd_min * sd_pitch + lch), or a vertical pass yielding no intervals,
makes get_fill_info return only the bounding box with no rectangles, without
raising. -/
theorem small_region_fill_empty (cfg : FillCfg) (w h del der deb det : ℤ)
    (solver_x solver_y : List (ℤ × ℤ)) :
    (((w - der) - fill_od_edge_margin cfg) - (del + fill_od_edge_margin cfg) <
        cfg.num_sd_min * cfg.sd_pitch + cfg.lch →
      get_fill_info cfg w h del der deb det solver_x solver_y
        = ([], ⟨del, deb, w - der, h - det⟩))
    ∧ get_fill_info cfg w h del der deb det solver_x []
        = ([], ⟨del, deb, w - der, h - det⟩) := by
  constructor
  · intro hs
    have hcond : ((w - der) - fill_od_edge_margin cfg) - (del + fill_od_edge_margin cfg) <
        _get_od_w cfg.num_sd_min cfg.sd_pitch cfg.lch := by
      unfold _get_od_w
      exact hs
    have hx : _get_od_x_list cfg (del + fill_od_edge_margin cfg)
        ((w - der) - fill_od_edge_margin cfg) solver_x = [] := by
      unfold _get_od_x_list
      rw [if_pos hcond]
    unfold get_fill_info
    rw [hx]
    simp
  · unfold get_fill_info
    by_cases hx : _get_od_x_list cfg (del + fill_od_edge_margin cfg)
        ((w - der) - fill_od_edge_margin cfg) solver_x = []
    · rw [hx]
      simp
    · rw [if_neg hx]
      simp

/-- C9 witness: a 200-wide region whose eligible span 120 is below the
minimum dummy width 198 produces an empty layout on concrete inputs. -/
theorem small_region_fill_empty_witness :
    get_fill_info ⟨84, 36, 18, 20, 60, 90, 50, 40, 30, 2, 20⟩ 200 400 0 0 0 0
        [(0, 10)] [(5, 9)] = ([], ⟨0, 0, 200, 400⟩) :=
  (small_region_fill_empty ⟨84, 36, 18, 20, 60, 90, 50, 40, 30, 2, 20⟩
    200 400 0 0 0 0 [(0, 10)] [(5, 9)]).1 (by decide)

/-- num_po of get_mos_tap_info (mos/tech.py lines 519-520):
num_wire = seg + 1 gate wires, num_po = num_wire + 1 gate polys. -/
def tap_num_po (seg : ℤ) : ℤ := seg + 1 + 1

/-- num_vg of the odd-num_po branch of get_mos_tap_info (mos/tech.py
line 529). -/
def tap_num_vg (seg : ℤ) : ℤ := pydiv (tap_num_po seg) 2

/-- num_vgm of get_mos_tap_info (mos/tech.py lines 530-537): the size of the
middle leftover gate-via array (2 or 4 depending on the parity of num_vg). -/
def tap_num_vgm (seg : ℤ) : ℤ :=
  if pymod (tap_num_vg seg) 2 = 1 then 2 else 4

/-- num_vg2 of get_mos_tap_info (mos/tech.py lines 530-537): the size of each
mirrored half-array. -/
def tap_num_vg2 (seg : ℤ) : ℤ :=
  if pymod (tap_num_vg seg) 2 = 1 then pydiv (tap_num_vg seg - 1) 2
  else pydiv (tap_num_vg seg - 2) 2

/-- bbox.xm of the tap block (mos/tech.py line 539): the block spans
[0, seg * sd_pitch]. -/
def tap_xm (seg sd_pitch : ℤ) : ℤ := pydiv (seg * sd_pitch) 2

/-- vgm_x of get_mos_tap_info (mos/tech.py line 539): the left edge of the
middle gate-via array. -/
def tap_vgm_x (seg sd_pitch : ℤ) : ℤ :=
  tap_xm seg sd_pitch - pydiv ((tap_num_vgm seg - 1) * sd_pitch) 2

/-- The M1_LiPo gate-via arrays emitted by get_mos_tap_info (mos/tech.py
lines 528-567), each as (x0, nx, spx) in emission order: for odd num_po the
middle array then (when num_vg2 > 0) the left and right half-arrays; for even
num_po one pairwise array.  The matching MP rectangle arrays share the same
counts and pitches. -/
def tap_gate_via_groups (seg sd_pitch : ℤ) : List (ℤ × ℤ × ℤ) :=
  if pymod (tap_num_po seg) 2 = 1 then
    (tap_vgm_x seg sd_pitch, tap_num_vgm seg, sd_pitch) ::
      (if 0 < tap_num_vg2 seg then
        [((0 : ℤ), tap_num_vg2 seg, 2 * sd_pitch),
         ((seg + 1 - 1) * sd_pitch - (tap_num_vg2 seg - 1) * (2 * sd_pitch),
          tap_num_vg2 seg, 2 * sd_pitch)]
      else [])
  else
    [((0 : ℤ), pydiv (tap_num_po seg) 2, 2 * sd_pitch)]

/-- The via x-coordinates of one (x0, nx, spx) array. -/
def via_group_positions (g : ℤ × ℤ × ℤ) : List ℤ :=
  (List.range g.2.1.toNat).map (fun k : ℕ => g.1 + (k : ℤ) * g.2.2)

/-- All gate-via x-coordinates emitted by get_mos_tap_info. -/
def tap_gate_via_xs (seg sd_pitch : ℤ) : List ℤ :=
  (tap_gate_via_groups seg sd_pitch).flatMap via_group_positions

/-- The middle-leftover wiring shape asserted by the spec for emit_tap: a
middle array of 2 or 4 fingers at unit pitch, flanked (when any fingers
remain) by two mirrored half-arrays at pitch 2 * sd_pitch. -/
def is_middle_leftover (seg sd_pitch : ℤ) (gs : List (ℤ × ℤ × ℤ)) : Prop :=
  ∃ vx nm n2, (nm = 2 ∨ nm = 4) ∧
    (gs = [(vx, nm, sd_pitch)] ∨
     gs = [(vx, nm, sd_pitch), (0, n2, 2 * sd_pitch),
           (seg * sd_pitch - (n2 - 1) * (2 * sd_pitch), n2, 2 * sd_pitch)])

/-- The uniform pairwise wiring shape: a single array at pitch
2 * sd_pitch starting at the first finger. -/
def is_uniform_pairwise (sd_pitch : ℤ) (gs : List (ℤ × ℤ × ℤ)) : Prop :=
  ∃ n, gs = [(0, n, 2 * sd_pitch)]

/-- C5 counterexample: the claim attaches the middle-leftover pattern to an
odd finger count seg + 1.  At seg = 2 the finger count 3 is odd, yet
get_mos_tap_info (which branches on num_po = seg + 2) emits the single
uniform pairwise array, not a middle-leftover pattern. -/
theorem tap_parity_claim_counterexample :
    pymod (2 + 1) 2 = 1
    ∧ tap_gate_via_groups 2 90 = [(0, 2, 180)]
    ∧ ¬ is_middle_leftover 2 90 (tap_gate_via_groups 2 90) := by
  have hg : tap_gate_via_groups 2 90 = [((0 : ℤ), (2 : ℤ), (180 : ℤ))] := by decide
  refine ⟨by decide, hg, ?_⟩
  rintro ⟨vx, nm, n2, hnm, hgs | hgs⟩
  · rw [hg] at hgs
    simp only [List.cons.injEq, Prod.mk.injEq, and_true] at hgs
    omega
  · rw [hg] at hgs
    have hlen := congrArg List.length hgs
    simp at hlen

theorem via_group_positions_mem (a n p x : ℤ) :
    x ∈ via_group_positions (a, n, p) ↔ ∃ k : ℤ, 0 ≤ k ∧ k < n ∧ x = a + k * p := by
  show x ∈ (List.range n.toNat).map (fun k : ℕ => a + (k : ℤ) * p) ↔ _
  rw [List.mem_map]
  constructor
  · rintro ⟨k, hk, hval⟩
    rw [List.mem_range] at hk
    exact ⟨(k : ℤ), by omega, by omega, hval.symm⟩
  · rintro ⟨k, h0, hn, rfl⟩
    refine ⟨k.toNat, ?_, ?_⟩
    · rw [List.mem_range]
      omega
    · rw [Int.toNat_of_nonneg h0]

/-- Reflecting an arithmetic progression about a center lands in the mirror
progression: if a + b + (n - 1) * p = c then x in AP(a, n, p) gives c - x in
AP(b, n, p). -/
theorem ap_mem_reflect_pair {a b n p c x : ℤ} (hc : a + b + (n - 1) * p = c)
    (hx : x ∈ via_group_positions (a, n, p)) :
    c - x ∈ via_group_positions (b, n, p) := by
  rw [via_group_positions_mem] at hx
  rw [via_group_positions_mem]
  obtain ⟨k, h0, hn, rfl⟩ := hx
  exact ⟨n - 1 - k, by omega, by omega, by linear_combination -hc⟩

/-- C5 amended: the parity is the reverse of the claim: an even finger count
seg + 1 (odd gate-poly count num_po = seg + 2) produces the symmetric
middle-leftover pattern of 2 or 4 extra fingers flanked by two mirrored
half-arrays, an odd finger count produces the single uniform pairwise array
at pitch 2 * sd_pitch; and the emitted gate-via x-positions are symmetric
about the block's horizontal center seg * sd_pitch / 2. -/
theorem tap_parity_amended (seg sd_pitch : ℤ) (hseg : 1 ≤ seg) :
    (pymod (seg + 1) 2 = 0 →
      is_middle_leftover seg sd_pitch (tap_gate_via_groups seg sd_pitch))
    ∧ (pymod (seg + 1) 2 = 1 →
      is_uniform_pairwise sd_pitch (tap_gate_via_groups seg sd_pitch))
    ∧ (∀ x, x ∈ tap_gate_via_xs seg sd_pitch ↔
        seg * sd_pitch - x ∈ tap_gate_via_xs seg sd_pitch) := by
  rw [pymod_eq_emod _ (by norm_num : (0:ℤ) ≤ 2)]
  by_cases hodd : seg % 2 = 1
  · have hpo : pymod (tap_num_po seg) 2 = 1 := by
      unfold tap_num_po
      rw [pymod_eq_emod _ (by norm_num : (0:ℤ) ≤ 2)]
      omega
    have hnvm : tap_num_vgm seg = 2 ∨ tap_num_vgm seg = 4 := by
      unfold tap_num_vgm
      by_cases h : pymod (tap_num_vg seg) 2 = 1 <;> simp [h]
    have hj : ∃ j : ℤ, seg - (tap_num_vgm seg - 1) = 2 * j := by
      rcases hnvm with h | h <;> rw [h]
      · exact ⟨(seg - 1) / 2, by omega⟩
      · exact ⟨(seg - 3) / 2, by omega⟩
    obtain ⟨j, hjj⟩ := hj
    have hTU : seg * sd_pitch - (tap_num_vgm seg - 1) * sd_pitch =
        2 * (j * sd_pitch) := by
      linear_combination sd_pitch * hjj
    have hpar : (seg * sd_pitch - (tap_num_vgm seg - 1) * sd_pitch) % 2 = 0 := by
      rw [hTU]
      exact Int.mul_emod_right 2 _
    have hkey : 2 * (pydiv (seg * sd_pitch) 2 -
        pydiv ((tap_num_vgm seg - 1) * sd_pitch) 2) =
        seg * sd_pitch - (tap_num_vgm seg - 1) * sd_pitch := by
      rw [pydiv_eq_ediv _ (by norm_num : (0:ℤ) ≤ 2),
        pydiv_eq_ediv _ (by norm_num : (0:ℤ) ≤ 2)]
      omega
    have hc_mid : tap_vgm_x seg sd_pitch + tap_vgm_x seg sd_pitch +
        (tap_num_vgm seg - 1) * sd_pitch = seg * sd_pitch := by
      unfold tap_vgm_x tap_xm
      linarith [hkey]
    by_cases hn2 : 0 < tap_num_vg2 seg
    · have hgroups : tap_gate_via_groups seg sd_pitch =
          [(tap_vgm_x seg sd_pitch, tap_num_vgm seg, sd_pitch),
           ((0 : ℤ), tap_num_vg2 seg, 2 * sd_pitch),
           (seg * sd_pitch - (tap_num_vg2 seg - 1) * (2 * sd_pitch),
            tap_num_vg2 seg, 2 * sd_pitch)] := by
        unfold tap_gate_via_groups
        rw [if_pos hpo, if_pos hn2,
          show (seg + 1 - 1) * sd_pitch = seg * sd_pitch from by ring]
      have hfwd : ∀ x, x ∈ tap_gate_via_xs seg sd_pitch →
          seg * sd_pitch - x ∈ tap_gate_via_xs seg sd_pitch := by
        intro x hx
        unfold tap_gate_via_xs at hx ⊢
        rw [hgroups] at hx ⊢
        simp only [List.flatMap_cons, List.flatMap_nil, List.append_nil,
          List.mem_append] at hx ⊢
        rcases hx with h | h | h
        · exact Or.inl (ap_mem_reflect_pair hc_mid h)
        · exact Or.inr (Or.inr (ap_mem_reflect_pair (by ring) h))
        · exact Or.inr (Or.inl (ap_mem_reflect_pair (by ring) h))
      refine ⟨fun _ => ?_, fun hcon => absurd hcon (by omega),
        fun x => ⟨hfwd x, fun hx => ?_⟩⟩
      · exact ⟨tap_vgm_x seg sd_pitch, tap_num_vgm seg, tap_num_vg2 seg, hnvm,
          Or.inr hgroups⟩
      · have h2 := hfwd _ hx
        simpa using h2
    · have hgroups : tap_gate_via_groups seg sd_pitch =
          [(tap_vgm_x seg sd_pitch, tap_num_vgm seg, sd_pitch)] := by
        unfold tap_gate_via_groups
        rw [if_pos hpo, if_neg hn2]
      have hfwd : ∀ x, x ∈ tap_gate_via_xs seg sd_pitch →
          seg * sd_pitch - x ∈ tap_gate_via_xs seg sd_pitch := by
        intro x hx
        unfold tap_gate_via_xs at hx ⊢
        rw [hgroups] at hx ⊢
        simp only [List.flatMap_cons, List.flatMap_nil, List.append_nil] at hx ⊢
        exact ap_mem_reflect_pair hc_mid hx
      refine ⟨fun _ => ?_, fun hcon => absurd hcon (by omega),
        fun x => ⟨hfwd x, fun hx => ?_⟩⟩
      · exact ⟨tap_vgm_x seg sd_pitch, tap_num_vgm seg, 0, hnvm, Or.inl hgroups⟩
      · have h2 := hfwd _ hx
        simpa using h2
  · have hpo : ¬ pymod (tap_num_po seg) 2 = 1 := by
      unfold tap_num_po
      rw [pymod_eq_emod _ (by norm_num : (0:ℤ) ≤ 2)]
      omega
    have hgroups : tap_gate_via_groups seg sd_pitch =
        [((0 : ℤ), pydiv (tap_num_po seg) 2, 2 * sd_pitch)] := by
      unfold tap_gate_via_groups
      rw [if_neg hpo]
    have h2 : 2 * (pydiv (tap_num_po seg) 2 - 1) = seg := by
      unfold tap_num_po
      rw [pydiv_eq_ediv _ (by norm_num : (0:ℤ) ≤ 2)]
      omega
    have hc : (0 : ℤ) + 0 + (pydiv (tap_num_po seg) 2 - 1) * (2 * sd_pitch) =
        seg * sd_pitch := by
      linear_combination sd_pitch * h2
    have hfwd : ∀ x, x ∈ tap_gate_via_xs seg sd_pitch →
        seg * sd_pitch - x ∈ tap_gate_via_xs seg sd_pitch := by
      intro x hx
      unfold tap_gate_via_xs at hx ⊢
      rw [hgroups] at hx ⊢
      simp only [List.flatMap_cons, List.flatMap_nil, List.append_nil] at hx ⊢
      exact ap_mem_reflect_pair hc hx
    refine ⟨fun hcon => absurd hcon (by omega), fun _ => ?_,
      fun x => ⟨hfwd x, fun hx => ?_⟩⟩
    · exact ⟨pydiv (tap_num_po seg) 2, hgroups⟩
    · have h2x := hfwd _ hx
      simpa using h2x

/-- C5 amended witness: at seg = 3 (finger count 4, even) the tap wiring is
the middle-leftover pattern on concrete inputs. -/
theorem tap_parity_amended_witness :
    is_middle_leftover 3 90 (tap_gate_via_groups 3 90) :=
  (tap_parity_amended 3 90 (by decide)).1 (by decide)
